import Mathlib

/-!
Verification of the message-relay bot in `src/discord_demo.py`.

Python strings are modelled as `List Char`.  The builtins the source uses
(`str.split`, `str.replace`, `str.strip`) are implemented below with the
semantics of the Python builtins at the concrete separators and patterns the
source calls them with (all of length one or two characters).  The chunking
block of `on_message` (lines 130-168) becomes `splitMessage` and
`formatResponse`; the dispatcher control flow of `on_message` (lines 74-177)
becomes `on_message`, returning the outbound sends, the log events and the
question strings passed to the generation client.
-/

/-- The ASCII whitespace test used by Python `str.strip()` with no argument
(restricted to the ASCII whitespace characters; the source only ever strips
spaces and newlines it inserted itself). -/
def isPySpace (c : Char) : Bool :=
  c == ' ' || c == '\t' || c == '\n' || c == '\r' || c == '\x0b' || c == '\x0c'

/-- Python `s.lstrip()`. -/
def lstrip (s : List Char) : List Char := s.dropWhile isPySpace

/-- Python `s.rstrip()`. -/
def rstrip (s : List Char) : List Char := (s.reverse.dropWhile isPySpace).reverse

/-- Python `s.strip()`: drop leading and trailing whitespace. -/
def pyStrip (s : List Char) : List Char := lstrip (rstrip s)

/-- Python `s.split(sep)` for a one-character separator `[a]`
(`para.replace('. ', '.\n').split('\n')`, line 147). -/
def splitOn1 (a : Char) : List Char → List (List Char)
  | [] => [[]]
  | c :: rest =>
    if c = a then [] :: splitOn1 a rest
    else
      match splitOn1 a rest with
      | [] => [[c]]
      | h :: t => (c :: h) :: t

/-- Python `s.split(sep)` for a two-character separator `[a, b]`
(`response_text.split('\n\n')`, line 136): left-to-right, non-overlapping. -/
def splitOn2 (a b : Char) : List Char → List (List Char)
  | [] => [[]]
  | [c] => [[c]]
  | c :: d :: rest =>
    if c = a ∧ d = b then [] :: splitOn2 a b rest
    else
      match splitOn2 a b (d :: rest) with
      | [] => [[c]]
      | h :: t => (c :: h) :: t

/-- Python `s.replace(old, new)` for two-character `old = [a, b]` and
`new = [c, d]` (`para.replace('. ', '.\n')`, line 147): left-to-right,
non-overlapping. -/
def replace2 (a b c d : Char) : List Char → List Char
  | [] => []
  | [x] => [x]
  | x :: y :: rest =>
    if x = a ∧ y = b then c :: d :: replace2 a b c d rest
    else x :: replace2 a b c d (y :: rest)

/-- The per-message transport limit, the literal `2000` of lines 130-149. -/
def MessageLimit : Nat := 2000

/-- State of the chunking loop: the `chunks` list already emitted and the
`current_chunk` running buffer. -/
structure ChunkState where
  chunks : List (List Char)
  current : List Char

/-- `sentences = para.replace('. ', '.\n').split('\n')` (line 147). -/
def sentencesOf (para : List Char) : List (List Char) :=
  splitOn1 '\n' (replace2 '.' ' ' '.' '\n' para)

/-- Body of the inner `for sentence in sentences` loop (lines 148-154). -/
def stepSentence (st : ChunkState) (sentence : List Char) : ChunkState :=
  if st.current.length + sentence.length + 1 > MessageLimit then
    { chunks := if st.current ≠ [] then st.chunks ++ [pyStrip st.current] else st.chunks,
      current := sentence ++ [' '] }
  else
    { st with current := st.current ++ (sentence ++ [' ']) }

/-- The branch of the paragraph loop taken once the buffer has been flushed:
lines 145-156 (sentence-level fallback for an oversized paragraph, else start
a fresh buffer with the paragraph). -/
def stepParaOver (st1 : ChunkState) (para : List Char) : ChunkState :=
  if para.length > MessageLimit then (sentencesOf para).foldl stepSentence st1
  else { chunks := st1.chunks, current := para ++ ['\n', '\n'] }

/-- Body of the outer `for para in paragraphs` loop (lines 138-158). -/
def stepPara (st : ChunkState) (para : List Char) : ChunkState :=
  if st.current.length + para.length + 2 > MessageLimit then
    stepParaOver
      (if st.current ≠ [] then { chunks := st.chunks ++ [pyStrip st.current], current := [] }
       else st)
      para
  else { st with current := st.current ++ (para ++ ['\n', '\n']) }

/-- The paragraph loop of lines 136-158, started from empty `chunks` and
empty `current_chunk` (lines 132-133). -/
def chunkLoop (text : List Char) : ChunkState :=
  (splitOn2 '\n' '\n' text).foldl stepPara { chunks := [], current := [] }

/-- The chunking block of `on_message` (lines 132-162), final flush
included (lines 161-162). -/
def splitMessage (text : List Char) : List (List Char) :=
  if pyStrip (chunkLoop text).current ≠ [] then
    (chunkLoop text).chunks ++ [pyStrip (chunkLoop text).current]
  else (chunkLoop text).chunks

/-- Lines 130 and 167-168: chunk only when the text is over the limit,
otherwise send the text as a single message, verbatim. -/
def formatResponse (text : List Char) : List (List Char) :=
  if text.length > MessageLimit then splitMessage text else [text]

/-- One entry of `response.candidates` (lines 111-112). -/
structure Candidate where
  finish_reason : List Char
  safety_ratings : List (List Char)

/-- The response object returned by `chat.send_message` (lines 97-127):
`parts`, `candidates` and `text` are the attributes the handler reads. -/
structure GenResponse where
  parts : List (List Char)
  candidates : List Candidate
  text : List Char

/-- Outcome of the generation call: a response object, or an exception
caught by the `except` clause at line 172. -/
inductive GenResult where
  | success : GenResponse → GenResult
  | failure : List Char → GenResult

/-- Log events the handler emits: the blocked-response warning of
lines 114-118, the info line 170, and the exception log line 173. -/
inductive LogEvent where
  | blockWarning : List Char → List (List Char) → LogEvent
  | infoResponded : List Char → LogEvent
  | exceptionLog : List Char → LogEvent

/-- Observable effects of one `on_message` invocation: the messages sent to
the channel in order, the log events, and the questions passed to the
generation client. -/
structure Effects where
  sends : List (List Char)
  logs : List LogEvent
  genCalls : List (List Char)

/-- The command prefix `"$question "` (lines 63 and 81-83). -/
def qcmd : List Char := "$question ".toList

/-- The usage prompt of line 86. -/
def usagePrompt : List Char := "Please ask a question after `$question`!".toList

/-- The apology message of lines 120-123. -/
def blockedApology : List Char :=
  ("Sorry, I couldn\x27t generate a response. This might be due to content filters. "
    ++ "Please try rephrasing your question.").toList

/-- The prefix of the error message of line 174. -/
def errorPrefix : List Char := "Sorry, I encountered an error: ".toList

/-- The static help text of lines 182-191. -/
def helpText : List Char :=
  ("**Discord + Gemini AI Bot**\n\nUse `$question <your question>` to ask me anything!\n\n"
    ++ "Examples:\n- `$question What is Python?`\n- `$question Explain quantum computing`\n"
    ++ "- `$question Tell me a joke`\n\nI\x27m powered by Google Gemini AI and ready to help!").toList

/-- `response.candidates[0].finish_reason if response.candidates else "unknown"`
(line 111). -/
def finishReasonOf (r : GenResponse) : List Char :=
  match r.candidates with
  | [] => "unknown".toList
  | c :: _ => c.finish_reason

/-- `response.candidates[0].safety_ratings if response.candidates else []`
(line 112). -/
def safetyRatingsOf (r : GenResponse) : List (List Char) :=
  match r.candidates with
  | [] => []
  | c :: _ => c.safety_ratings

/-- Modelled from the spec: `bot.process_commands(message)` (line 177) lives in
the external `discord.ext.commands` library, which dispatches the registered
`help` command (lines 180-192) only when the message content starts with the
configured command prefix `"$question "` and the word after the prefix is
`help` (the bot is constructed with `case_insensitive=True`); on any other
content it does nothing. -/
def processCommands (content : List Char) : List (List Char) :=
  if qcmd.isPrefixOf content then
    if ((content.drop qcmd.length).takeWhile (fun c => c ≠ ' ')).map Char.toLower
        = "help".toList then [helpText]
    else []
  else []

/-- The `on_message` handler (lines 74-177), as a function from the author
test, the message content and the generation outcome to the observable
effects.  The early `return`s of lines 87 and 124 skip `process_commands`;
the success and exception paths fall through to it (line 177). -/
def on_message (isSelf : Bool) (content : List Char) (result : GenResult) : Effects :=
  if isSelf then { sends := [], logs := [], genCalls := [] }
  else if qcmd.isPrefixOf content then
    if pyStrip (content.drop qcmd.length) = [] then
      { sends := [usagePrompt], logs := [], genCalls := [] }
    else
      match result with
      | .success r =>
        if r.parts = [] then
          { sends := [blockedApology],
            logs := [.blockWarning (finishReasonOf r) (safetyRatingsOf r)],
            genCalls := [pyStrip (content.drop qcmd.length)] }
        else
          { sends := formatResponse r.text ++ processCommands content,
            logs := [.infoResponded ((pyStrip (content.drop qcmd.length)).take 50)],
            genCalls := [pyStrip (content.drop qcmd.length)] }
      | .failure e =>
        { sends := (errorPrefix ++ e) :: processCommands content,
          logs := [.exceptionLog e],
          genCalls := [pyStrip (content.drop qcmd.length)] }
  else { sends := processCommands content, logs := [], genCalls := [] }

/-! ### Lemmas about the string helpers -/

theorem dropWhile_append_all {p : Char → Bool} {a : List Char} (b : List Char)
    (h : ∀ c ∈ a, p c = true) : (a ++ b).dropWhile p = b.dropWhile p := by
  induction a with
  | nil => simp
  | cons x xs ih =>
    rw [List.cons_append, List.dropWhile_cons, h x (by simp)]
    simp only [if_true]
    exact ih (fun c hc => h c (by simp [hc]))

theorem dropWhile_all {p : Char → Bool} {a : List Char}
    (h : ∀ c ∈ a, p c = true) : a.dropWhile p = [] := by
  have := dropWhile_append_all (p := p) [] h
  simpa using this

theorem rstrip_append_ws {w : List Char} (s : List Char)
    (h : ∀ c ∈ w, isPySpace c = true) : rstrip (s ++ w) = rstrip s := by
  unfold rstrip
  rw [List.reverse_append, dropWhile_append_all _ (fun c hc => h c (List.mem_reverse.mp hc))]

theorem pyStrip_append_ws {w : List Char} (s : List Char)
    (h : ∀ c ∈ w, isPySpace c = true) : pyStrip (s ++ w) = pyStrip s := by
  unfold pyStrip
  rw [rstrip_append_ws s h]

theorem length_dropWhile_le (p : Char → Bool) (s : List Char) :
    (s.dropWhile p).length ≤ s.length := by
  induction s with
  | nil => simp
  | cons x xs ih =>
    rw [List.dropWhile_cons]
    split
    · exact le_trans ih (by simp)
    · simp

theorem rstrip_length_le (s : List Char) : (rstrip s).length ≤ s.length := by
  unfold rstrip
  rw [List.length_reverse]
  calc (s.reverse.dropWhile isPySpace).length ≤ s.reverse.length :=
        length_dropWhile_le _ _
    _ = s.length := List.length_reverse s

theorem pyStrip_length_le (s : List Char) : (pyStrip s).length ≤ s.length := by
  unfold pyStrip lstrip
  exact le_trans (length_dropWhile_le _ _) (rstrip_length_le s)

theorem pyStrip_all_ws {s : List Char} (h : ∀ c ∈ s, isPySpace c = true) :
    pyStrip s = [] := by
  unfold pyStrip lstrip rstrip
  apply dropWhile_all
  intro c hc
  have : c ∈ s.reverse.dropWhile isPySpace := List.mem_reverse.mp hc
  have hsub : c ∈ s.reverse := (List.dropWhile_sublist _).mem this
  exact h c (List.mem_reverse.mp hsub)

theorem pyStrip_replicate {c : Char} (n : Nat) (h : isPySpace c = false) :
    pyStrip (List.replicate n c) = List.replicate n c := by
  have hdrop : ∀ m, (List.replicate m c).dropWhile isPySpace = List.replicate m c := by
    intro m
    cases m with
    | zero => rfl
    | succ k =>
      rw [List.replicate_succ, List.dropWhile_cons, h]
      simp
  unfold pyStrip lstrip rstrip
  rw [List.reverse_replicate, hdrop, List.reverse_replicate, hdrop]

/-! ### Lemmas about `splitOn1`, `splitOn2` and `replace2` -/

theorem splitOn1_no_sep {a : Char} {s : List Char} (h : a ∉ s) :
    splitOn1 a s = [s] := by
  induction s with
  | nil => rfl
  | cons c rest ih =>
    have hca : ¬ c = a := fun hc => h (hc ▸ List.mem_cons_self c rest)
    unfold splitOn1
    rw [if_neg hca, ih (fun hm => h (List.mem_cons_of_mem c hm))]

theorem splitOn2_no_mem {a : Char} (b : Char) {s : List Char} (h : a ∉ s) :
    splitOn2 a b s = [s] := by
  induction s with
  | nil => rfl
  | cons c rest ih =>
    cases rest with
    | nil => rfl
    | cons d rest2 =>
      have hca : ¬ (c = a ∧ d = b) := fun hc => h (hc.1 ▸ List.mem_cons_self c _)
      unfold splitOn2
      rw [if_neg hca, ih (fun hm => h (List.mem_cons_of_mem c hm))]

theorem splitOn2_boundary {a : Char} (b : Char) {p1 : List Char} (p2 : List Char)
    (h : a ∉ p1) : splitOn2 a b (p1 ++ a :: b :: p2) = p1 :: splitOn2 a b p2 := by
  induction p1 with
  | nil =>
    rw [List.nil_append]
    conv_lhs => unfold splitOn2
    rw [if_pos ⟨rfl, rfl⟩]
  | cons c p1' ih =>
    have hca : ¬ c = a := fun hc => h (hc ▸ List.mem_cons_self c p1')
    have hne : p1' ++ a :: b :: p2 ≠ [] := by simp
    rw [List.cons_append]
    cases hE : p1' ++ a :: b :: p2 with
    | nil => exact absurd hE hne
    | cons d rest2 =>
      conv_lhs => unfold splitOn2
      rw [if_neg (fun hc => hca hc.1), ← hE, ih (fun hm => h (List.mem_cons_of_mem c hm))]

theorem replace2_no_occurrence {a b : Char} (c d : Char) {s : List Char}
    (h : ¬ ([a, b] <:+: s)) : replace2 a b c d s = s := by
  induction s with
  | nil => rfl
  | cons x rest ih =>
    cases rest with
    | nil => rfl
    | cons y rest2 =>
      have hxy : ¬ (x = a ∧ y = b) := by
        rintro ⟨rfl, rfl⟩
        exact h ⟨[], rest2, by simp⟩
      unfold replace2
      rw [if_neg hxy, ih (fun hi => h (List.infix_cons hi))]

theorem not_infix_of_head_not_mem {a b : Char} {s : List Char} (h : a ∉ s) :
    ¬ ([a, b] <:+: s) :=
  fun hi => h (hi.subset (by simp))

theorem sentencesOf_no_boundary {t : List Char} (hn : '\n' ∉ t)
    (hd : ¬ (['.', ' '] <:+: t)) : sentencesOf t = [t] := by
  unfold sentencesOf
  rw [replace2_no_occurrence _ _ hd, splitOn1_no_sep hn]

/-! ### Size invariant of the chunking loop -/

/-- Invariant of the chunking loop: every emitted chunk is within the limit,
and stripping the running buffer yields something within the limit. -/
def ChunkInv (st : ChunkState) : Prop :=
  (∀ c ∈ st.chunks, c.length ≤ MessageLimit) ∧
    (pyStrip st.current).length ≤ MessageLimit

theorem chunkInv_init : ChunkInv { chunks := [], current := [] } := by
  constructor
  · intro c hc
    simp at hc
  · simp [pyStrip, lstrip, rstrip, MessageLimit]

theorem flush_chunks_app {st : ChunkState} (h : ChunkInv st) :
    ∀ c ∈ st.chunks ++ [pyStrip st.current], c.length ≤ MessageLimit := by
  intro c hc
  rcases List.mem_append.mp hc with hold | hnew
  · exact h.1 c hold
  · rw [List.mem_singleton.mp hnew]
    exact h.2

theorem flush_chunks_inv {st : ChunkState} (h : ChunkInv st) :
    ∀ c ∈ (if st.current ≠ [] then st.chunks ++ [pyStrip st.current] else st.chunks),
      c.length ≤ MessageLimit := by
  intro c hc
  split at hc
  · rcases List.mem_append.mp hc with hold | hnew
    · exact h.1 c hold
    · rw [List.mem_singleton.mp hnew]
      exact h.2
  · exact h.1 c hc

theorem stepSentence_inv {st : ChunkState} {s : List Char}
    (hs : s.length < MessageLimit) (h : ChunkInv st) :
    ChunkInv (stepSentence st s) := by
  unfold stepSentence
  split
  · refine ⟨flush_chunks_inv h, ?_⟩
    rw [pyStrip_append_ws s (by decide)]
    exact le_trans (pyStrip_length_le s) (le_of_lt hs)
  · rename_i hle
    refine ⟨h.1, ?_⟩
    refine le_trans (pyStrip_length_le _) ?_
    simp only [List.length_append, List.length_singleton]
    omega

theorem foldl_stepSentence_inv {sts : List (List Char)}
    (hs : ∀ s ∈ sts, s.length < MessageLimit) :
    ∀ {st : ChunkState}, ChunkInv st → ChunkInv (sts.foldl stepSentence st) := by
  induction sts with
  | nil => intro st h; exact h
  | cons s rest ih =>
    intro st h
    rw [List.foldl_cons]
    exact ih (fun x hx => hs x (List.mem_cons_of_mem s hx))
      (stepSentence_inv (hs s (List.mem_cons_self s rest)) h)

theorem stepPara_inv {st : ChunkState} {para : List Char}
    (hp : MessageLimit < para.length → ∀ s ∈ sentencesOf para, s.length < MessageLimit)
    (h : ChunkInv st) : ChunkInv (stepPara st para) := by
  unfold stepPara
  split
  · have hst1 : ChunkInv
        (if st.current ≠ [] then
          { chunks := st.chunks ++ [pyStrip st.current], current := [] }
         else st) := by
      split
      · exact ⟨flush_chunks_app h, by simp [pyStrip, lstrip, rstrip, MessageLimit]⟩
      · exact h
    unfold stepParaOver
    split
    · rename_i hbig
      exact foldl_stepSentence_inv (hp hbig) hst1
    · rename_i hsmall
      refine ⟨hst1.1, ?_⟩
      rw [pyStrip_append_ws para (by decide)]
      exact le_trans (pyStrip_length_le para) (by omega)
  · rename_i hle
    refine ⟨h.1, ?_⟩
    refine le_trans (pyStrip_length_le _) ?_
    simp only [List.length_append, List.length_cons, List.length_nil]
    omega

theorem foldl_stepPara_inv {paras : List (List Char)}
    (hp : ∀ para ∈ paras, MessageLimit < para.length →
      ∀ s ∈ sentencesOf para, s.length < MessageLimit) :
    ∀ {st : ChunkState}, ChunkInv st → ChunkInv (paras.foldl stepPara st) := by
  induction paras with
  | nil => intro st h; exact h
  | cons para rest ih =>
    intro st h
    rw [List.foldl_cons]
    exact ih (fun x hx => hp x (List.mem_cons_of_mem para hx))
      (stepPara_inv (hp para (List.mem_cons_self para rest)) h)

/-- Master size bound: if every sentence fragment of every oversized paragraph
is strictly under the limit, every chunk the chunker emits is within the
limit. -/
theorem splitMessage_bound {text : List Char}
    (hp : ∀ para ∈ splitOn2 '\n' '\n' text, MessageLimit < para.length →
      ∀ s ∈ sentencesOf para, s.length < MessageLimit) :
    ∀ c ∈ splitMessage text, c.length ≤ MessageLimit := by
  have hinv : ChunkInv (chunkLoop text) := foldl_stepPara_inv hp chunkInv_init
  intro c hc
  unfold splitMessage at hc
  split at hc
  · rcases List.mem_append.mp hc with hold | hnew
    · exact hinv.1 c hold
    · rw [List.mem_singleton.mp hnew]
      exact hinv.2
  · exact hinv.1 c hc

/-! ### Pointwise evaluation lemmas for the loop bodies -/

theorem stepPara_small {st : ChunkState} {para : List Char}
    (h : st.current.length + para.length + 2 ≤ MessageLimit) :
    stepPara st para = { st with current := st.current ++ (para ++ ['\n', '\n']) } := by
  unfold stepPara
  rw [if_neg (by omega)]

theorem stepPara_flush_small {st : ChunkState} {para : List Char}
    (hover : MessageLimit < st.current.length + para.length + 2)
    (hcur : st.current ≠ [])
    (hpara : para.length ≤ MessageLimit) :
    stepPara st para =
      { chunks := st.chunks ++ [pyStrip st.current], current := para ++ ['\n', '\n'] } := by
  have hc1 : st.current.length + para.length + 2 > MessageLimit := by omega
  have hc3 : ¬ (para.length > MessageLimit) := by omega
  unfold stepPara stepParaOver
  rw [if_pos hc1, if_pos hcur, if_neg hc3]

theorem stepPara_empty_small {st : ChunkState} {para : List Char}
    (hover : MessageLimit < st.current.length + para.length + 2)
    (hcur : st.current = [])
    (hpara : para.length ≤ MessageLimit) :
    stepPara st para = { chunks := st.chunks, current := para ++ ['\n', '\n'] } := by
  have hc1 : st.current.length + para.length + 2 > MessageLimit := by omega
  have hc2 : ¬ (st.current ≠ []) := by simp [hcur]
  have hc3 : ¬ (para.length > MessageLimit) := by omega
  unfold stepPara stepParaOver
  rw [if_pos hc1, if_neg hc2, if_neg hc3]

theorem stepPara_empty_big {st : ChunkState} {para : List Char}
    (hover : MessageLimit < st.current.length + para.length + 2)
    (hcur : st.current = [])
    (hpara : MessageLimit < para.length) :
    stepPara st para = (sentencesOf para).foldl stepSentence st := by
  have hc1 : st.current.length + para.length + 2 > MessageLimit := by omega
  have hc2 : ¬ (st.current ≠ []) := by simp [hcur]
  have hc3 : para.length > MessageLimit := hpara
  unfold stepPara stepParaOver
  rw [if_pos hc1, if_neg hc2, if_pos hc3]

theorem stepSentence_empty_big {st : ChunkState} {s : List Char}
    (hover : MessageLimit < st.current.length + s.length + 1)
    (hcur : st.current = []) :
    stepSentence st s = { chunks := st.chunks, current := s ++ [' '] } := by
  have hc1 : st.current.length + s.length + 1 > MessageLimit := by omega
  have hc2 : ¬ (st.current ≠ []) := by simp [hcur]
  unfold stepSentence
  rw [if_pos hc1, if_neg hc2]

/-- Trace of the chunker on a pathological over-limit text with no paragraph
and no sentence boundary: it comes back as a single oversized chunk. -/
theorem splitMessage_no_boundary {t : List Char} (hn : '\n' ∉ t)
    (hd : ¬ (['.', ' '] <:+: t)) (hs : pyStrip t = t)
    (hlen : MessageLimit < t.length) : splitMessage t = [t] := by
  have ht0 : t ≠ [] := by
    intro hE
    rw [hE] at hlen
    simp [MessageLimit] at hlen
  have hloop : chunkLoop t = { chunks := [], current := t ++ [' '] } := by
    unfold chunkLoop
    rw [splitOn2_no_mem '\n' hn, List.foldl_cons, List.foldl_nil]
    rw [stepPara_empty_big (by simp; omega) rfl (by omega)]
    rw [sentencesOf_no_boundary hn hd, List.foldl_cons, List.foldl_nil]
    rw [stepSentence_empty_big (by simp; omega) rfl]
  unfold splitMessage
  rw [hloop]
  have hstrip : pyStrip (t ++ [' ']) = t := by
    rw [pyStrip_append_ws t (by decide), hs]
  simp only [hstrip]
  rw [if_pos ht0]
  simp

/-! ### Small facts used by the witnesses -/

theorem not_mem_replicate_of_ne {c d : Char} (n : Nat) (h : c ≠ d) :
    c ∉ List.replicate n d := by
  intro hm
  rw [List.mem_replicate] at hm
  exact h hm.2

/-! ### The claims -/

/-- Claim C1, counterexample.  The claim "for every `text` with
`length(text) > 2000`, every chunk has length at most 2000" is false on the
code: the single unbroken 2001-character run `'a' * 2001` comes back from the
chunker as one chunk of length 2001. -/
theorem C1_counterexample :
    ¬ (∀ text : List Char, MessageLimit < text.length →
        ∀ c ∈ splitMessage text, c.length ≤ MessageLimit) := by
  intro h
  have hlen : MessageLimit < (List.replicate 2001 'a').length := by
    rw [List.length_replicate]
    decide
  have hsplit : splitMessage (List.replicate 2001 'a') = [List.replicate 2001 'a'] :=
    splitMessage_no_boundary (not_mem_replicate_of_ne 2001 (by decide))
      (not_infix_of_head_not_mem (not_mem_replicate_of_ne 2001 (by decide)))
      (pyStrip_replicate 2001 (by decide)) hlen
  have hc := h (List.replicate 2001 'a') hlen (List.replicate 2001 'a')
    (by rw [hsplit]; exact List.mem_singleton.mpr rfl)
  rw [List.length_replicate] at hc
  exact absurd hc (by decide)

/-- Claim C1, amended.  For every `text` with `length(text) > 2000`, every chunk
is within the limit *provided* every sentence fragment of every oversized
paragraph is strictly shorter than the limit; the counterexample above shows
the proviso cannot be dropped. -/
theorem C1_amended_chunk_bound (text : List Char)
    (hlen : MessageLimit < text.length)
    (hfrag : ∀ para ∈ splitOn2 '\n' '\n' text, MessageLimit < para.length →
      ∀ s ∈ sentencesOf para, s.length < MessageLimit) :
    ∀ c ∈ splitMessage text, c.length ≤ MessageLimit :=
  splitMessage_bound hfrag

theorem C1_amended_witness :
    MessageLimit <
      (List.replicate 1000 'a' ++ '\n' :: '\n' :: List.replicate 1000 'b').length ∧
    (∀ para ∈ splitOn2 '\n' '\n'
        (List.replicate 1000 'a' ++ '\n' :: '\n' :: List.replicate 1000 'b'),
      MessageLimit < para.length → ∀ s ∈ sentencesOf para, s.length < MessageLimit) ∧
    ∀ c ∈ splitMessage (List.replicate 1000 'a' ++ '\n' :: '\n' :: List.replicate 1000 'b'),
      c.length ≤ MessageLimit := by
  have hlen : MessageLimit <
      (List.replicate 1000 'a' ++ '\n' :: '\n' :: List.replicate 1000 'b').length := by
    simp only [List.length_append, List.length_cons, List.length_replicate]
    decide
  have hfrag : ∀ para ∈ splitOn2 '\n' '\n'
      (List.replicate 1000 'a' ++ '\n' :: '\n' :: List.replicate 1000 'b'),
      MessageLimit < para.length → ∀ s ∈ sentencesOf para, s.length < MessageLimit := by
    rw [splitOn2_boundary '\n' _ (not_mem_replicate_of_ne 1000 (by decide)),
      splitOn2_no_mem '\n' (not_mem_replicate_of_ne 1000 (by decide))]
    intro para hp hbig
    rcases List.mem_cons.mp hp with rfl | hp2
    · rw [List.length_replicate] at hbig
      exact absurd hbig (by decide)
    · rw [List.mem_singleton.mp hp2, List.length_replicate] at hbig
      exact absurd hbig (by decide)
  exact ⟨hlen, hfrag, C1_amended_chunk_bound _ hlen hfrag⟩

/-- Claim C2, counterexample.  On the single 5000-character paragraph with no
sentence boundary (`'a' * 5000`), the chunker does cover the content but the
single chunk it returns has length 5000, so "each chunk has length at most
2000" fails. -/
theorem C2_counterexample :
    (List.replicate 5000 'a').length = 5000 ∧
    ¬ (∀ c ∈ splitMessage (List.replicate 5000 'a'), c.length ≤ MessageLimit) := by
  have hsplit : splitMessage (List.replicate 5000 'a') = [List.replicate 5000 'a'] :=
    splitMessage_no_boundary (not_mem_replicate_of_ne 5000 (by decide))
      (not_infix_of_head_not_mem (not_mem_replicate_of_ne 5000 (by decide)))
      (pyStrip_replicate 5000 (by decide))
      (by rw [List.length_replicate]; decide)
  refine ⟨List.length_replicate 5000 'a', fun h => ?_⟩
  have hc := h (List.replicate 5000 'a') (by rw [hsplit]; exact List.mem_singleton.mpr rfl)
  rw [List.length_replicate] at hc
  exact absurd hc (by decide)

/-- Claim C2, amended.  For a single paragraph of length 5000 with no paragraph
or sentence boundary, the chunker returns exactly one chunk equal to the whole
content (so the content is covered), and that chunk has length 5000, which
exceeds the 2000 limit. -/
theorem C2_amended_single_chunk (text : List Char) (hlen : text.length = 5000)
    (hn : '\n' ∉ text) (hd : ¬ (['.', ' '] <:+: text))
    (hs : pyStrip text = text) :
    splitMessage text = [text] :=
  splitMessage_no_boundary hn hd hs (by rw [hlen]; decide)

theorem C2_amended_witness :
    (List.replicate 5000 'a').length = 5000 ∧
    '\n' ∉ List.replicate 5000 'a' ∧
    ¬ (['.', ' '] <:+: List.replicate 5000 'a') ∧
    pyStrip (List.replicate 5000 'a') = List.replicate 5000 'a' ∧
    splitMessage (List.replicate 5000 'a') = [List.replicate 5000 'a'] :=
  ⟨List.length_replicate 5000 'a',
    not_mem_replicate_of_ne 5000 (by decide),
    not_infix_of_head_not_mem (not_mem_replicate_of_ne 5000 (by decide)),
    pyStrip_replicate 5000 (by decide),
    C2_amended_single_chunk _ (List.length_replicate 5000 'a')
      (not_mem_replicate_of_ne 5000 (by decide))
      (not_infix_of_head_not_mem (not_mem_replicate_of_ne 5000 (by decide)))
      (pyStrip_replicate 5000 (by decide))⟩

/-- Claim C4.  For every `text` with `length(text) ≤ 2000`, the Response
Formatter (the `if` of lines 130/167-168) returns the one-element sequence
containing `text` verbatim, with no trimming or other modification. -/
theorem C4_formatter_identity (text : List Char) (h : text.length ≤ MessageLimit) :
    formatResponse text = [text] := by
  unfold formatResponse
  rw [if_neg (by omega)]

theorem C4_witness :
    ['h', 'i'].length ≤ MessageLimit ∧ formatResponse ['h', 'i'] = [['h', 'i']] :=
  ⟨by decide, C4_formatter_identity ['h', 'i'] (by decide)⟩

/-- Claim C6.  The chunking procedure is total: for every string it terminates
and returns a chunk sequence.  In this embedding `formatResponse` (and the
`splitMessage` it calls) is a total computable function — its termination is
checked by Lean — so every input, including the empty string, whitespace-only
strings, and boundary-free strings, is mapped to a result; there is no
exceptional path in lines 130-168. -/
theorem C6_total (text : List Char) :
    ∃ chunks : List (List Char), formatResponse text = chunks :=
  ⟨formatResponse text, rfl⟩

/-- Claim C9.  If every paragraph of the double-newline split is within the
2000 limit, then every chunk the chunker emits is within the 2000 limit. -/
theorem C9_paragraph_bound (text : List Char)
    (hp : ∀ para ∈ splitOn2 '\n' '\n' text, para.length ≤ MessageLimit) :
    ∀ c ∈ splitMessage text, c.length ≤ MessageLimit := by
  apply splitMessage_bound
  intro para hpara hbig
  have := hp para hpara
  omega

theorem C9_witness :
    (∀ para ∈ splitOn2 '\n' '\n' ['a', 'b'], para.length ≤ MessageLimit) ∧
    ∀ c ∈ splitMessage ['a', 'b'], c.length ≤ MessageLimit :=
  ⟨by decide, C9_paragraph_bound ['a', 'b'] (by decide)⟩

/-- Claim C3, code bug.  The claim "no chunk is empty or whitespace-only"
fails on the code: for the over-limit input `' ' * 2000 + "\n\n" + "b"` the
mid-loop flush (lines 141-142) guards only on buffer truthiness, not on its
stripped value, and emits the empty chunk `""` (the final flush at line 161
does guard on `current_chunk.strip()`, which is the intended invariant). -/
theorem C3_empty_chunk_at_failing_input :
    MessageLimit < (List.replicate 2000 ' ' ++ '\n' :: '\n' :: ['b']).length ∧
    [] ∈ splitMessage (List.replicate 2000 ' ' ++ '\n' :: '\n' :: ['b']) := by
  have hsp : splitOn2 '\n' '\n' (List.replicate 2000 ' ' ++ '\n' :: '\n' :: ['b'])
      = [List.replicate 2000 ' ', ['b']] := by
    rw [splitOn2_boundary '\n' ['b'] (not_mem_replicate_of_ne 2000 (by decide)),
      splitOn2_no_mem '\n' (by decide)]
  have h1 : stepPara { chunks := [], current := [] } (List.replicate 2000 ' ')
      = { chunks := [], current := List.replicate 2000 ' ' ++ ['\n', '\n'] } := by
    have := @stepPara_empty_small { chunks := [], current := [] }
      (List.replicate 2000 ' ')
      (by simp only [List.length_nil, List.length_replicate, MessageLimit]; omega) rfl
      (by simp only [List.length_replicate, MessageLimit]; omega)
    exact this
  have hws : ∀ c ∈ List.replicate 2000 ' ' ++ ['\n', '\n'], isPySpace c = true := by
    intro c hc
    rcases List.mem_append.mp hc with hr | hnn
    · rw [List.mem_replicate] at hr
      rw [hr.2]
      decide
    · rcases List.mem_cons.mp hnn with rfl | hnn2
      · decide
      · rw [List.mem_singleton.mp hnn2]
        decide
  have hflush : pyStrip (List.replicate 2000 ' ' ++ ['\n', '\n']) = [] :=
    pyStrip_all_ws hws
  have h2 : stepPara { chunks := [], current := List.replicate 2000 ' ' ++ ['\n', '\n'] } ['b']
      = { chunks := [[]], current := ['b'] ++ ['\n', '\n'] } := by
    have := @stepPara_flush_small
      { chunks := [], current := List.replicate 2000 ' ' ++ ['\n', '\n'] }
      ['b']
      (by simp only [List.length_append, List.length_cons, List.length_nil,
        List.length_replicate, MessageLimit]; omega)
      (by intro hE; exact absurd (List.append_eq_nil.mp hE).2 (by decide))
      (by simp only [List.length_cons, List.length_nil, MessageLimit]; omega)
    rw [this, hflush]
    rfl
  have hloop : chunkLoop (List.replicate 2000 ' ' ++ '\n' :: '\n' :: ['b'])
      = { chunks := [[]], current := ['b'] ++ ['\n', '\n'] } := by
    unfold chunkLoop
    rw [hsp, List.foldl_cons, List.foldl_cons, List.foldl_nil, h1, h2]
  constructor
  · simp only [List.length_append, List.length_cons, List.length_nil,
      List.length_replicate, MessageLimit]
    omega
  · unfold splitMessage
    rw [hloop]
    have hb : pyStrip (['b'] ++ ['\n', '\n']) = ['b'] := by decide
    simp only [hb]
    rw [if_pos (by decide)]
    simp

/-- Claim C5.  For a text made of two paragraphs of length 1500 each, separated
by a double newline (neither paragraph containing a newline nor carrying
leading/trailing whitespace), the chunker returns exactly the two paragraphs,
in order. -/
theorem C5_two_paragraphs (p1 p2 : List Char)
    (h1 : p1.length = 1500) (h2 : p2.length = 1500)
    (hn1 : '\n' ∉ p1) (hn2 : '\n' ∉ p2)
    (hs1 : pyStrip p1 = p1) (hs2 : pyStrip p2 = p2) :
    splitMessage (p1 ++ '\n' :: '\n' :: p2) = [p1, p2] := by
  have hsp : splitOn2 '\n' '\n' (p1 ++ '\n' :: '\n' :: p2) = [p1, p2] := by
    rw [splitOn2_boundary '\n' p2 hn1, splitOn2_no_mem '\n' hn2]
  have hstep1 : stepPara { chunks := [], current := [] } p1
      = { chunks := [], current := [] ++ (p1 ++ ['\n', '\n']) } :=
    stepPara_small (by norm_num [h1, MessageLimit])
  have hstrip1 : pyStrip (p1 ++ ['\n', '\n']) = p1 := by
    rw [pyStrip_append_ws p1 (by decide), hs1]
  have hstep2 : stepPara { chunks := [], current := p1 ++ ['\n', '\n'] } p2
      = { chunks := [] ++ [pyStrip (p1 ++ ['\n', '\n'])], current := p2 ++ ['\n', '\n'] } :=
    stepPara_flush_small (by norm_num [h1, h2, MessageLimit]) (by simp)
      (by norm_num [h2, MessageLimit])
  have hstrip2 : pyStrip (p2 ++ ['\n', '\n']) = p2 := by
    rw [pyStrip_append_ws p2 (by decide), hs2]
  have hp2ne : p2 ≠ [] := by
    intro hE
    rw [hE] at h2
    simp at h2
  have hloop : chunkLoop (p1 ++ '\n' :: '\n' :: p2)
      = { chunks := [p1], current := p2 ++ ['\n', '\n'] } := by
    unfold chunkLoop
    rw [hsp, List.foldl_cons, List.foldl_cons, List.foldl_nil, hstep1]
    simp only [List.nil_append]
    rw [hstep2, hstrip1]
    rfl
  unfold splitMessage
  rw [hloop]
  simp only [hstrip2]
  rw [if_pos hp2ne]
  rfl

theorem C5_witness :
    (List.replicate 1500 'a').length = 1500 ∧ (List.replicate 1500 'b').length = 1500 ∧
    '\n' ∉ List.replicate 1500 'a' ∧ '\n' ∉ List.replicate 1500 'b' ∧
    pyStrip (List.replicate 1500 'a') = List.replicate 1500 'a' ∧
    pyStrip (List.replicate 1500 'b') = List.replicate 1500 'b' ∧
    splitMessage (List.replicate 1500 'a' ++ '\n' :: '\n' :: List.replicate 1500 'b')
      = [List.replicate 1500 'a', List.replicate 1500 'b'] :=
  ⟨List.length_replicate 1500 'a', List.length_replicate 1500 'b',
    not_mem_replicate_of_ne 1500 (by decide), not_mem_replicate_of_ne 1500 (by decide),
    pyStrip_replicate 1500 (by decide), pyStrip_replicate 1500 (by decide),
    C5_two_paragraphs _ _ (List.length_replicate 1500 'a') (List.length_replicate 1500 'b')
      (not_mem_replicate_of_ne 1500 (by decide)) (not_mem_replicate_of_ne 1500 (by decide))
      (pyStrip_replicate 1500 (by decide)) (pyStrip_replicate 1500 (by decide))⟩

/-! ### Dispatcher claims -/

theorem qcmd_eq : qcmd = "$question".toList ++ [' '] := by decide

theorem isPrefixOf_append_left (x m n : List Char) :
    (x ++ m).isPrefixOf (x ++ n) = m.isPrefixOf n := by
  induction x with
  | nil => rfl
  | cons c cs ih =>
    rw [List.cons_append, List.cons_append, List.isPrefixOf_cons₂, beq_self_eq_true,
      Bool.true_and, ih]

/-- Claim C7.  When the prefix matches, the question is non-empty, and the
generation call returns a blocked response (no usable `parts`), the handler
sends exactly one apology message, logs exactly one warning carrying the
block reason and the safety ratings, and (being a total function in this
embedding) propagates no exception. -/
theorem C7_blocked_apology (content : List Char) (r : GenResponse)
    (hpre : qcmd.isPrefixOf content = true)
    (hq : pyStrip (content.drop qcmd.length) ≠ [])
    (hblocked : r.parts = []) :
    on_message false content (.success r)
      = { sends := [blockedApology],
          logs := [LogEvent.blockWarning (finishReasonOf r) (safetyRatingsOf r)],
          genCalls := [pyStrip (content.drop qcmd.length)] } := by
  simp [on_message, hpre, hq, hblocked]

theorem C7_witness :
    qcmd.isPrefixOf "$question hi".toList = true ∧
    pyStrip ("$question hi".toList.drop qcmd.length) ≠ [] ∧
    (⟨[], [], []⟩ : GenResponse).parts = [] ∧
    on_message false "$question hi".toList (.success ⟨[], [], []⟩)
      = { sends := [blockedApology],
          logs := [LogEvent.blockWarning (finishReasonOf ⟨[], [], []⟩)
            (safetyRatingsOf ⟨[], [], []⟩)],
          genCalls := [pyStrip ("$question hi".toList.drop qcmd.length)] } :=
  ⟨by decide, by decide, rfl,
    C7_blocked_apology "$question hi".toList ⟨[], [], []⟩ (by decide) (by decide) rfl⟩

/-- Claim C8.  When the prefix matches but the argument strips to the empty
string, the handler sends exactly the usage prompt and performs no generation
call, whatever the generation outcome would have been. -/
theorem C8_usage_prompt (content : List Char) (result : GenResult)
    (hpre : qcmd.isPrefixOf content = true)
    (hq : pyStrip (content.drop qcmd.length) = []) :
    on_message false content result
      = { sends := [usagePrompt], logs := [], genCalls := [] } := by
  simp [on_message, hpre, hq]

theorem C8_witness :
    qcmd.isPrefixOf "$question   ".toList = true ∧
    pyStrip ("$question   ".toList.drop qcmd.length) = [] ∧
    on_message false "$question   ".toList (.failure [])
      = { sends := [usagePrompt], logs := [], genCalls := [] } :=
  ⟨by decide, by decide,
    C8_usage_prompt "$question   ".toList (.failure []) (by decide) (by decide)⟩

/-- Claim C10.  A non-self message whose content is exactly `"$question"`, or
starts with `"$question"` not followed by a space, triggers nothing: no send
(neither usage prompt nor chunk nor help text), no generation call. -/
theorem C10_bare_prefix_ignored (tail : List Char) (result : GenResult)
    (h : tail = [] ∨ ∃ c rest, tail = c :: rest ∧ c ≠ ' ') :
    on_message false ("$question".toList ++ tail) result
      = { sends := [], logs := [], genCalls := [] } := by
  have hpre : qcmd.isPrefixOf ("$question".toList ++ tail) = false := by
    rw [qcmd_eq, isPrefixOf_append_left]
    rcases h with rfl | ⟨c, rest, rfl, hc⟩
    · rfl
    · rw [show ([' '] : List Char) = ' ' :: [] from rfl, List.isPrefixOf_cons₂,
        beq_eq_false_iff_ne.mpr (Ne.symm hc), Bool.false_and]
  have hpre2 : ¬ (qcmd <+: ('$' :: 'q' :: 'u' :: 'e' :: 's' :: 't' :: 'i' :: 'o' :: 'n' :: tail)) := by
    intro hP
    have hB : qcmd.isPrefixOf ("$question".toList ++ tail) = true :=
      List.isPrefixOf_iff_prefix.mpr hP
    rw [hpre] at hB
    exact Bool.false_ne_true hB
  simp [on_message, processCommands, hpre2]

theorem C10_witness :
    (([] : List Char) = [] ∨ ∃ c rest, ([] : List Char) = c :: rest ∧ c ≠ ' ') ∧
    on_message false ("$question".toList ++ []) (.failure [])
      = { sends := [], logs := [], genCalls := [] } :=
  ⟨Or.inl rfl, C10_bare_prefix_ignored [] (.failure []) (Or.inl rfl)⟩
